import Mathlib

/-!
Shallow embedding of src/aux/prepare_data.py (adjective-vs-adverb data
preparation script) and verification of its specification claims.

Python strings are modelled by Lean String, with helper functions that
mirror the Python string operations on the character list (str.endswith,
str.startswith, s[:-1], str.strip).  Python dicts keyed by strings are
modelled as association lists with overwrite-on-insert semantics.  The
external NLP annotator is modelled as an abstract function from a line of
text to a list of sentences, each a list of tokens carrying text, tag and
dependency-head tag.
-/

/-- Python str.endswith: suffix test on the character sequence. -/
def pyEndsWith (s suffix : String) : Bool :=
  suffix.data.isSuffixOf s.data

/-- Python str.startswith: prefix test on the character sequence. -/
def pyStartsWith (s pre : String) : Bool :=
  pre.data.isPrefixOf s.data

/-- Python s[:-1]: drop the final character (identity on the empty string). -/
def pyDropLast (s : String) : String :=
  String.mk s.data.dropLast

/-- Python whitespace characters stripped by str.strip(). -/
def pyWhitespace (c : Char) : Bool :=
  c = ' ' || c = '\t' || c = '\n' || c = '\r' || c = '\x0b' || c = '\x0c'

/-- Python str.strip(): remove leading and trailing whitespace. -/
def pyStrip (s : String) : String :=
  String.mk (((s.data.dropWhile pyWhitespace).reverse.dropWhile pyWhitespace).reverse)

/-- Python truthiness of an `Optional[str]` value: `None` and the empty
string are falsy, every other string is truthy.  Used for
`if adv and ...` and `if d.get(key, None)` in the source. -/
def py_truthy : Option String → Bool
  | none => false
  | some s => s != ""

/-- The suffix-rule cascade of transform_adj_to_adv (prepare_data.py lines
46-59): the value the local variable `adverb` holds when the exception
branches did not fire.  First match wins. -/
def suffix_candidate (adjective : String) : String :=
  -- responsible => responsibly
  if pyEndsWith adjective "le" ∧ adjective ≠ "sole" then pyDropLast adjective ++ "y"
  -- angry => angrily
  else if pyEndsWith adjective "y" ∧ adjective ≠ "shy" then pyDropLast adjective ++ "ily"
  -- idiotic => idiotically
  else if pyEndsWith adjective "ic" then adjective ++ "ally"
  -- full => fully
  else if pyEndsWith adjective "ll" then adjective ++ "y"
  -- free => freely
  else adjective ++ "ly"

/-- transform_adj_to_adv (prepare_data.py lines 28-62), parameterised by the
adverb lexicon ADV (a set of strings in the source, modelled as a list with
membership semantics). -/
def transform_adj_to_adv (ADV : List String) (adjective : String) : Option String :=
  -- friendly
  if pyEndsWith adjective "ly" then none
  -- hard
  else if adjective ∈ ADV then some adjective
  -- exceptions
  else if adjective = "good" then some "well"
  else if adjective = "whole" ∨ adjective = "true" then some (pyDropLast adjective ++ "ly")
  -- suffix rules, then check for validity
  else if suffix_candidate adjective ∈ ADV then some (suffix_candidate adjective) else none

/-- Python dict insert `d[k] = v`: overwrite the value if the key is
present, append the entry otherwise. -/
def dinsert : List (String × String) → String → String → List (String × String)
  | [], k, v => [(k, v)]
  | (k', v') :: rest, k, v =>
    if k' = k then (k, v) :: rest else (k', v') :: dinsert rest k v

/-- Python dict lookup `d.get(k, None)`. -/
def dget : List (String × String) → String → Option String
  | [], _ => none
  | (k', v') :: rest, k => if k' = k then some v' else dget rest k

/-- One iteration of the map-building loop (prepare_data.py lines 66-70):
`if adv and adv != adj: adj_to_adv[adj] = adv; adv_to_adj[adv] = adj`.
Python truthiness of the string `adv` is `adv ≠ ""`. -/
def build_step (ADV : List String)
    (maps : List (String × String) × List (String × String)) (adj : String) :
    List (String × String) × List (String × String) :=
  match transform_adj_to_adv ADV adj with
  | none => maps
  | some adv =>
    if adv ≠ "" ∧ adv ≠ adj then (dinsert maps.1 adj adv, dinsert maps.2 adv adj) else maps

/-- The map-building loop over the adjective lexicon (prepare_data.py lines
64-70).  The source iterates over a Python set; the iteration order is
modelled by the list order of ADJ. -/
def build_maps (ADJ ADV : List String) :
    List (String × String) × List (String × String) :=
  ADJ.foldl (build_step ADV) ([], [])

/-- A token as exposed by the external annotator: its text, its
part-of-speech tag (token.tag_), and its dependency head's tag
(token.head.tag_). -/
structure Token where
  text : String
  tag : String
  head_tag : String
deriving DecidableEq

/-- An emitted training example: the sentence's token texts, the index of
the matched token, and the label ("ADJ" or "ADV"). -/
structure Example where
  sentence : List String
  ind : Nat
  label : String
deriving DecidableEq

/-- The adjective branch condition of the token loop (prepare_data.py lines
87-89): token.tag_ == "JJ" and token.head.tag_.startswith("VB") and
adj_to_adv.get(token.text, None) is truthy. -/
def adj_cond (m1 : List (String × String)) (tok : Token) : Bool :=
  tok.tag == "JJ" && pyStartsWith tok.head_tag "VB" && py_truthy (dget m1 tok.text)

/-- The adverb branch condition of the token loop (prepare_data.py lines
93-95), checked only when the adjective branch did not fire. -/
def adv_cond (m2 : List (String × String)) (tok : Token) : Bool :=
  tok.tag == "RB" && pyStartsWith tok.head_tag "VB" && py_truthy (dget m2 tok.text)

/-- The token loop over one sentence (prepare_data.py lines 85-98),
recursing over the tokens while tracking the index i of range(len(sent)).
texts is the full sentence's token texts [token.text for token in sent]. -/
def collect_go (m1 m2 : List (String × String)) (texts : List String) :
    Nat → List Token → List Example × List Example
  | _, [] => ([], [])
  | i, tok :: rest =>
    let r := collect_go m1 m2 texts (i + 1) rest
    if adj_cond m1 tok then (⟨texts, i, "ADJ"⟩ :: r.1, r.2)
    else if adv_cond m2 tok then (r.1, ⟨texts, i, "ADV"⟩ :: r.2)
    else r

/-- The examples one annotated sentence contributes to the adj and adv
lists, in token order. -/
def collect_sent (m1 m2 : List (String × String)) (sent : List Token) :
    List Example × List Example :=
  collect_go m1 m2 (sent.map Token.text) 0 sent

/-- Processing the sentences of one annotated line: each sentence's
examples are appended to the two accumulated lists (prepare_data.py lines
85-98, grouping the per-token appends by sentence). -/
def sent_step (m1 m2 : List (String × String))
    (acc : List Example × List Example) (sent : List Token) :
    List Example × List Example :=
  (acc.1 ++ (collect_sent m1 m2 sent).1, acc.2 ++ (collect_sent m1 m2 sent).2)

/-- Processing one raw line of a corpus file (prepare_data.py lines 81-98):
strip it, and if it is non-empty and does not start with "<", run the
annotator and collect from every sentence. -/
def line_step (annotate : String → List (List Token))
    (m1 m2 : List (String × String))
    (acc : List Example × List Example) (raw : String) :
    List Example × List Example :=
  let line := pyStrip raw
  if line.length > 0 ∧ ¬pyStartsWith line "<" then
    (annotate line).foldl (sent_step m1 m2) acc
  else acc

/-- The full scanning loop (prepare_data.py lines 77-98): the first 55
files in listing order, each file a list of raw lines. -/
def run_collect (annotate : String → List (List Token))
    (m1 m2 : List (String × String)) (files : List (List String)) :
    List Example × List Example :=
  (files.take 55).foldl (fun acc lines => lines.foldl (line_step annotate m1 m2) acc) ([], [])

/-- Collection over a flat list of already-stripped, already-filtered
lines, used to characterise run_collect. -/
def collect_lines (annotate : String → List (List Token))
    (m1 m2 : List (String × String)) (lines : List String) :
    List Example × List Example :=
  lines.foldl (fun acc line => (annotate line).foldl (sent_step m1 m2) acc) ([], [])

/-- List concatMap, spelled out for kernel-friendly reasoning. -/
def catMap {α β : Type} (g : α → List β) : List α → List β
  | [] => []
  | x :: xs => g x ++ catMap g xs

/-- The lines a corpus submits to the annotator: for each of the first 55
files, the stripped lines that are non-empty and do not start with "<",
in file order then line order. -/
def submitted_lines (files : List (List String)) : List String :=
  catMap (fun lines =>
    (lines.map pyStrip).filter (fun l => l.length > 0 ∧ ¬pyStartsWith l "<"))
    (files.take 55)

/-- The serialised output (prepare_data.py line 104):
json.dump(adj[:10000] + adv[:10000], f). -/
def output_data (adjL advL : List Example) : List Example :=
  adjL.take 10000 ++ advL.take 10000

/-- The path the scanner opens for a listed file name (prepare_data.py
line 80): plain string concatenation args.input_dir + filename. -/
def opened_path (input_dir filename : String) : String :=
  input_dir ++ filename

/-- A path refers to a file directly inside a directory when it is the
directory (with a "/" separator ensured at its end) followed by a
non-empty name containing no separator. -/
def refers_inside (dir p : String) : Prop :=
  ∃ name : List Char, name ≠ [] ∧ '/' ∉ name ∧
    p.data = (if dir.data.getLast? = some '/' then dir.data else dir.data ++ ['/']) ++ name

example : transform_adj_to_adv ["quickly"] "quick" = some "quickly" := by decide
example : transform_adj_to_adv ["friendly"] "friendly" = none := by decide
example : transform_adj_to_adv ["responsibly"] "responsible" = some "responsibly" := by decide
example : transform_adj_to_adv ["angrily"] "angry" = some "angrily" := by decide
example : transform_adj_to_adv ["shyly"] "shy" = some "shyly" := by decide
example : transform_adj_to_adv [] "good" = some "well" := by decide
example : transform_adj_to_adv [] "whole" = some "wholly" := by decide
example : transform_adj_to_adv [] "true" = some "truly" := by decide
example : transform_adj_to_adv ["hard"] "hard" = some "hard" := by decide
example : build_maps ["ab", "able"] ["ably"] =
    ([("ab", "ably"), ("able", "ably")], [("ably", "able")]) := by decide

/-- C7: for every adjective string ending in "ly", the mapper returns no
mapping (None), regardless of the contents of the lexicons and before any
other rule is considered. -/
theorem ly_guard (ADV : List String) (a : String) (h : pyEndsWith a "ly" = true) :
    transform_adj_to_adv ADV a = none := by
  unfold transform_adj_to_adv
  rw [if_pos h]

theorem ly_guard_witness :
    pyEndsWith "friendly" "ly" = true ∧
      transform_adj_to_adv ["friendly"] "friendly" = none :=
  ⟨by decide, ly_guard ["friendly"] "friendly" (by decide)⟩

/-- C6: the mapper maps "good" to "well", "whole" to "wholly" and "true" to
"truly" (drop the final letter and append "ly"), provided none of the three
is itself listed in the adverb lexicon (in which case the earlier
identity rule of the code would fire instead). -/
theorem exception_table (ADV : List String)
    (h1 : "good" ∉ ADV) (h2 : "whole" ∉ ADV) (h3 : "true" ∉ ADV) :
    transform_adj_to_adv ADV "good" = some "well" ∧
    transform_adj_to_adv ADV "whole" = some "wholly" ∧
    transform_adj_to_adv ADV "true" = some "truly" := by
  refine ⟨?_, ?_, ?_⟩
  · unfold transform_adj_to_adv
    rw [if_neg (by decide), if_neg h1, if_pos rfl]
  · unfold transform_adj_to_adv
    rw [if_neg (by decide), if_neg h2, if_neg (by decide), if_pos (Or.inl rfl)]
    decide
  · unfold transform_adj_to_adv
    rw [if_neg (by decide), if_neg h3, if_neg (by decide), if_pos (Or.inr rfl)]
    decide

theorem exception_table_witness :
    ("good" : String) ∉ ([] : List String) ∧
    transform_adj_to_adv [] "good" = some "well" ∧
    transform_adj_to_adv [] "whole" = some "wholly" ∧
    transform_adj_to_adv [] "true" = some "truly" :=
  ⟨by decide, exception_table [] (by decide) (by decide) (by decide)⟩

/-- C3: the serialized output equals the first min(n_adj, 10000) collected
adjective examples, in discovery order, followed by the first
min(n_adv, 10000) collected adverb examples, in discovery order; for a
corpus producing 15,000 raw adjective matches and 3,000 raw adverb matches,
the output contains exactly 10,000 ADJ examples followed by exactly 3,000
ADV examples, 13,000 in total. -/
theorem output_cap_and_order (adjL advL : List Example) :
    output_data adjL advL = adjL.take 10000 ++ advL.take 10000 ∧
    (output_data adjL advL).length = min adjL.length 10000 + min advL.length 10000 ∧
    (adjL.length = 15000 → advL.length = 3000 →
      (∀ e ∈ adjL, e.label = "ADJ") → (∀ e ∈ advL, e.label = "ADV") →
      (output_data adjL advL).countP (fun e => e.label == "ADJ") = 10000 ∧
      (output_data adjL advL).countP (fun e => e.label == "ADV") = 3000 ∧
      (output_data adjL advL).length = 13000 ∧
      output_data adjL advL = adjL.take 10000 ++ advL) := by
  refine ⟨rfl, ?_, ?_⟩
  · simp only [output_data, List.length_append, List.length_take]
    omega
  · intro hadj hadv hA hV
    have htakeV : advL.take 10000 = advL := List.take_of_length_le (by omega)
    have hAtake : ∀ e ∈ adjL.take 10000, e.label = "ADJ" :=
      fun e he => hA e (List.take_subset _ _ he)
    have hlenA : (adjL.take 10000).length = 10000 := by
      rw [List.length_take]; omega
    have hcA : (adjL.take 10000).countP (fun e => e.label == "ADJ") = 10000 := by
      rw [List.countP_eq_length.mpr, hlenA]
      intro e he
      simp [hAtake e he]
    have hcA0 : advL.countP (fun e => e.label == "ADJ") = 0 := by
      rw [List.countP_eq_zero]
      intro e he
      simp [hV e he]
    have hcV : advL.countP (fun e => e.label == "ADV") = 3000 := by
      rw [List.countP_eq_length.mpr, hadv]
      intro e he
      simp [hV e he]
    have hcV0 : (adjL.take 10000).countP (fun e => e.label == "ADV") = 0 := by
      rw [List.countP_eq_zero]
      intro e he
      simp [hAtake e he]
    refine ⟨?_, ?_, ?_, ?_⟩
    · rw [output_data, htakeV, List.countP_append, hcA, hcA0]
    · rw [output_data, htakeV, List.countP_append, hcV, hcV0]
    · simp only [output_data, List.length_append, List.length_take]
      omega
    · rw [output_data, htakeV]

theorem output_cap_and_order_witness :
    (List.replicate 15000 (⟨["x"], 0, "ADJ"⟩ : Example)).length = 15000 ∧
    (output_data (List.replicate 15000 (⟨["x"], 0, "ADJ"⟩ : Example))
        (List.replicate 3000 (⟨["x"], 0, "ADV"⟩ : Example))).length = 13000 := by
  refine ⟨List.length_replicate 15000 _, ?_⟩
  have h := (output_cap_and_order
      (List.replicate 15000 (⟨["x"], 0, "ADJ"⟩ : Example))
      (List.replicate 3000 (⟨["x"], 0, "ADV"⟩ : Example))).2.2
      (List.length_replicate 15000 _) (List.length_replicate 3000 _)
      (by intro e he; rw [List.eq_of_mem_replicate he])
      (by intro e he; rw [List.eq_of_mem_replicate he])
  exact h.2.2.1

/-- When none of the first four branches of transform_adj_to_adv fires,
the result is the suffix-rule candidate gated by adverb-lexicon
membership. -/
theorem transform_suffix_branch (ADV : List String) (a : String)
    (h1 : pyEndsWith a "ly" = false) (h2 : a ∉ ADV)
    (h3 : a ≠ "good") (h4 : a ≠ "whole") (h5 : a ≠ "true") :
    transform_adj_to_adv ADV a =
      if suffix_candidate a ∈ ADV then some (suffix_candidate a) else none := by
  unfold transform_adj_to_adv
  rw [if_neg (by simp [h1]), if_neg h2, if_neg h3, if_neg (by simp [h4, h5])]

/-- C4: for an adjective not ending in "ly", not in the adverb lexicon, and
not "good"/"whole"/"true", the candidate adverb is computed by the first
matching rule of: ends in "le" and not "sole" → drop "e" append "y";
ends in "y" and not "shy" → drop "y" append "ily"; ends in "ic" → append
"ally"; ends in "ll" → append "y"; otherwise append "ly".  "angry" yields
candidate "angrily" and "shy" falls through to the default rule, yielding
candidate "shyly". -/
theorem suffix_rule_precedence (ADV : List String) (a : String)
    (h1 : pyEndsWith a "ly" = false) (h2 : a ∉ ADV)
    (h3 : a ≠ "good") (h4 : a ≠ "whole") (h5 : a ≠ "true") :
    (transform_adj_to_adv ADV a =
      if suffix_candidate a ∈ ADV then some (suffix_candidate a) else none) ∧
    (pyEndsWith a "le" = true → a ≠ "sole" →
      suffix_candidate a = pyDropLast a ++ "y") ∧
    (¬(pyEndsWith a "le" = true ∧ a ≠ "sole") →
      pyEndsWith a "y" = true → a ≠ "shy" →
      suffix_candidate a = pyDropLast a ++ "ily") ∧
    (¬(pyEndsWith a "le" = true ∧ a ≠ "sole") →
      ¬(pyEndsWith a "y" = true ∧ a ≠ "shy") →
      pyEndsWith a "ic" = true → suffix_candidate a = a ++ "ally") ∧
    (¬(pyEndsWith a "le" = true ∧ a ≠ "sole") →
      ¬(pyEndsWith a "y" = true ∧ a ≠ "shy") →
      pyEndsWith a "ic" = false → pyEndsWith a "ll" = true →
      suffix_candidate a = a ++ "y") ∧
    (¬(pyEndsWith a "le" = true ∧ a ≠ "sole") →
      ¬(pyEndsWith a "y" = true ∧ a ≠ "shy") →
      pyEndsWith a "ic" = false → pyEndsWith a "ll" = false →
      suffix_candidate a = a ++ "ly") ∧
    suffix_candidate "angry" = "angrily" ∧ suffix_candidate "shy" = "shyly" := by
  refine ⟨transform_suffix_branch ADV a h1 h2 h3 h4 h5,
    ?_, ?_, ?_, ?_, ?_, by decide, by decide⟩
  · intro hle hns
    unfold suffix_candidate
    rw [if_pos ⟨hle, hns⟩]
  · intro hn1 hy hns
    unfold suffix_candidate
    rw [if_neg hn1, if_pos ⟨hy, hns⟩]
  · intro hn1 hn2 hic
    unfold suffix_candidate
    rw [if_neg hn1, if_neg hn2, if_pos hic]
  · intro hn1 hn2 hic hll
    unfold suffix_candidate
    rw [if_neg hn1, if_neg hn2, if_neg (by simp [hic]), if_pos hll]
  · intro hn1 hn2 hic hll
    unfold suffix_candidate
    rw [if_neg hn1, if_neg hn2, if_neg (by simp [hic]), if_neg (by simp [hll])]

theorem suffix_rule_precedence_witness :
    pyEndsWith "angry" "ly" = false ∧ ("angry" : String) ∉ (["angrily"] : List String) ∧
    (transform_adj_to_adv ["angrily"] "angry" =
      if suffix_candidate "angry" ∈ ["angrily"] then some (suffix_candidate "angry")
      else none) ∧ suffix_candidate "angry" = "angrily" ∧ suffix_candidate "shy" = "shyly" := by
  have h := suffix_rule_precedence ["angrily"] "angry"
    (by decide) (by decide) (by decide) (by decide) (by decide)
  exact ⟨by decide, by decide, h.1, h.2.2.2.2.2.2⟩

/-- C5: a candidate adverb produced by the suffix rules is rejected (the
mapper returns no mapping) when it is not a member of the adverb lexicon;
in the same situation every returned adverb is a lexicon member; and, for
an adverb lexicon not containing "responsible" itself,
map("responsible") = "responsibly" exactly when "responsibly" is in the
lexicon, and otherwise "responsible" has no mapping. -/
theorem validity_gate (ADV : List String) (a : String)
    (h1 : pyEndsWith a "ly" = false) (h2 : a ∉ ADV)
    (h3 : a ≠ "good") (h4 : a ≠ "whole") (h5 : a ≠ "true") :
    (suffix_candidate a ∉ ADV → transform_adj_to_adv ADV a = none) ∧
    (∀ adv, transform_adj_to_adv ADV a = some adv → adv ∈ ADV) ∧
    ("responsible" ∉ ADV →
      ((transform_adj_to_adv ADV "responsible" = some "responsibly") ↔
        "responsibly" ∈ ADV) ∧
      ("responsibly" ∉ ADV → transform_adj_to_adv ADV "responsible" = none)) := by
  have heq := transform_suffix_branch ADV a h1 h2 h3 h4 h5
  refine ⟨?_, ?_, ?_⟩
  · intro hnm
    rw [heq, if_neg hnm]
  · intro adv hsome
    rw [heq] at hsome
    by_cases hm : suffix_candidate a ∈ ADV
    · rw [if_pos hm] at hsome
      cases hsome
      exact hm
    · rw [if_neg hm] at hsome
      cases hsome
  · intro hr
    have hcand : suffix_candidate "responsible" = "responsibly" := by decide
    have heqr := transform_suffix_branch ADV "responsible"
      (by decide) hr (by decide) (by decide) (by decide)
    rw [hcand] at heqr
    constructor
    · constructor
      · intro hsome
        rw [heqr] at hsome
        by_cases hm : ("responsibly" : String) ∈ ADV
        · exact hm
        · rw [if_neg hm] at hsome
          cases hsome
      · intro hm
        rw [heqr, if_pos hm]
    · intro hnm
      rw [heqr, if_neg hnm]

theorem validity_gate_witness :
    pyEndsWith "free" "ly" = false ∧ ("free" : String) ∉ (["slowly"] : List String) ∧
    suffix_candidate "free" ∉ (["slowly"] : List String) ∧
    transform_adj_to_adv ["slowly"] "free" = none := by
  have h := validity_gate ["slowly"] "free"
    (by decide) (by decide) (by decide) (by decide) (by decide)
  exact ⟨by decide, by decide, by decide, h.1 (by decide)⟩

theorem dget_dinsert_self (d : List (String × String)) (k v : String) :
    dget (dinsert d k v) k = some v := by
  induction d with
  | nil => simp [dinsert, dget]
  | cons p rest ih =>
    obtain ⟨k', v'⟩ := p
    by_cases h : k' = k
    · subst h
      simp [dinsert, dget]
    · show dget (if k' = k then (k, v) :: rest else (k', v') :: dinsert rest k v) k = some v
      rw [if_neg h]
      show (if k' = k then some v' else dget (dinsert rest k v) k) = some v
      rw [if_neg h]
      exact ih

theorem dget_dinsert_ne (d : List (String × String)) (k v k' : String)
    (h : k' ≠ k) : dget (dinsert d k v) k' = dget d k' := by
  induction d with
  | nil =>
    show (if k = k' then some v else dget [] k') = dget [] k'
    rw [if_neg (fun hh => h hh.symm)]
  | cons p rest ih =>
    obtain ⟨k₀, v₀⟩ := p
    by_cases hk : k₀ = k
    · subst hk
      show dget (if k₀ = k₀ then (k₀, v) :: rest else _) k' = _
      rw [if_pos rfl]
      show (if k₀ = k' then some v else dget rest k') = (if k₀ = k' then some v₀ else dget rest k')
      rw [if_neg (fun hh => h (hh.symm)), if_neg (fun hh => h (hh.symm))]
    · show dget (if k₀ = k then _ else (k₀, v₀) :: dinsert rest k v) k' = _
      rw [if_neg hk]
      show (if k₀ = k' then some v₀ else dget (dinsert rest k v) k') =
        (if k₀ = k' then some v₀ else dget rest k')
      by_cases hk' : k₀ = k'
      · rw [if_pos hk', if_pos hk']
      · rw [if_neg hk', if_neg hk']
        exact ih

theorem build_step_eq_none (ADV : List String)
    (maps : List (String × String) × List (String × String)) (x : String)
    (hT : transform_adj_to_adv ADV x = none) : build_step ADV maps x = maps := by
  unfold build_step
  rw [hT]

theorem build_step_eq_pos (ADV : List String)
    (maps : List (String × String) × List (String × String)) (x adv : String)
    (hT : transform_adj_to_adv ADV x = some adv) (h1 : adv ≠ "") (h2 : adv ≠ x) :
    build_step ADV maps x = (dinsert maps.1 x adv, dinsert maps.2 adv x) := by
  unfold build_step
  rw [hT]
  exact if_pos ⟨h1, h2⟩

theorem build_step_eq_skip (ADV : List String)
    (maps : List (String × String) × List (String × String)) (x adv : String)
    (hT : transform_adj_to_adv ADV x = some adv) (hg : ¬(adv ≠ "" ∧ adv ≠ x)) :
    build_step ADV maps x = maps := by
  unfold build_step
  rw [hT]
  exact if_neg hg

theorem string_append_ne_empty (s t : String) (ht : t ≠ "") : s ++ t ≠ "" := by
  intro h
  apply ht
  have hd := congrArg String.data h
  rw [String.data_append] at hd
  have hnil : t.data = [] := (List.append_eq_nil.mp hd).2
  cases t with
  | mk d => cases hnil; rfl

theorem suffix_candidate_ne_empty (a : String) : suffix_candidate a ≠ "" := by
  unfold suffix_candidate
  split_ifs <;> apply string_append_ne_empty <;> decide

/-- transform_adj_to_adv only returns the empty string on the empty
adjective (via the identity rule). -/
theorem transform_some_empty (ADV : List String) (a : String)
    (h : transform_adj_to_adv ADV a = some "") : a = "" := by
  unfold transform_adj_to_adv at h
  split_ifs at h with g1 g2 g3 g4 g5
  · exact Option.some.inj h
  · exact absurd (Option.some.inj h) (by decide)
  · exact absurd (Option.some.inj h) (string_append_ne_empty _ "ly" (by decide))
  · exact absurd (Option.some.inj h) (suffix_candidate_ne_empty a)

/-- The soundness invariant of the forward map adj_to_adv is preserved by
the building loop: every entry a ↦ adv records the mapper's (non-empty,
non-identity) output on a. -/
theorem foldl_m1_sound (ADV : List String) (l : List String)
    (maps : List (String × String) × List (String × String))
    (hinv : ∀ a adv, dget maps.1 a = some adv →
      transform_adj_to_adv ADV a = some adv ∧ adv ≠ "" ∧ adv ≠ a) :
    ∀ a adv, dget (l.foldl (build_step ADV) maps).1 a = some adv →
      transform_adj_to_adv ADV a = some adv ∧ adv ≠ "" ∧ adv ≠ a := by
  induction l generalizing maps with
  | nil => exact hinv
  | cons x rest ih =>
    rw [List.foldl_cons]
    apply ih
    cases hT : transform_adj_to_adv ADV x with
    | none =>
      rw [build_step_eq_none ADV maps x hT]
      exact hinv
    | some adv0 =>
      by_cases hg : adv0 ≠ "" ∧ adv0 ≠ x
      · rw [build_step_eq_pos ADV maps x adv0 hT hg.1 hg.2]
        intro a adv hget
        by_cases hax : a = x
        · subst hax
          rw [dget_dinsert_self] at hget
          cases hget
          exact ⟨hT, hg.1, hg.2⟩
        · rw [dget_dinsert_ne _ _ _ _ hax] at hget
          exact hinv a adv hget
      · rw [build_step_eq_skip ADV maps x adv0 hT hg]
        exact hinv

/-- The backward-consistency invariant of the reverse map adv_to_adj is
preserved by the building loop: every entry adv ↦ a points back to a
forward entry a ↦ adv, with a drawn from the processed adjectives. -/
theorem foldl_m2_sound (ADJ ADV : List String) (l : List String)
    (hsub : ∀ x ∈ l, x ∈ ADJ)
    (maps : List (String × String) × List (String × String))
    (hinv : ∀ adv a, dget maps.2 adv = some a →
      transform_adj_to_adv ADV a = some adv ∧ adv ≠ a ∧ a ∈ ADJ ∧
      dget maps.1 a = some adv) :
    ∀ adv a, dget (l.foldl (build_step ADV) maps).2 adv = some a →
      transform_adj_to_adv ADV a = some adv ∧ adv ≠ a ∧ a ∈ ADJ ∧
      dget (l.foldl (build_step ADV) maps).1 a = some adv := by
  induction l generalizing maps with
  | nil => exact hinv
  | cons x rest ih =>
    rw [List.foldl_cons]
    apply ih (fun y hy => hsub y (List.mem_cons_of_mem x hy))
    cases hT : transform_adj_to_adv ADV x with
    | none =>
      rw [build_step_eq_none ADV maps x hT]
      exact hinv
    | some adv0 =>
      by_cases hg : adv0 ≠ "" ∧ adv0 ≠ x
      · rw [build_step_eq_pos ADV maps x adv0 hT hg.1 hg.2]
        intro adv a hget
        by_cases hadv : adv = adv0
        · subst hadv
          rw [dget_dinsert_self] at hget
          cases hget
          exact ⟨hT, hg.2, hsub x (List.mem_cons_self x rest), dget_dinsert_self _ _ _⟩
        · rw [dget_dinsert_ne _ _ _ _ hadv] at hget
          obtain ⟨h1, h2, h3, h4⟩ := hinv adv a hget
          refine ⟨h1, h2, h3, ?_⟩
          by_cases hax : a = x
          · subst hax
            rw [h1] at hT
            cases hT
            exact absurd rfl hadv
          · rw [dget_dinsert_ne _ _ _ _ hax]
            exact h4
      · rw [build_step_eq_skip ADV maps x adv0 hT hg]
        exact hinv

/-- Under injectivity of the mapper on the adjective lexicon, the
forward-consistency invariant (every forward entry has a reverse entry) is
preserved by the building loop. -/
theorem foldl_m1_complete_rev (ADJ ADV : List String)
    (hinj : ∀ a1 ∈ ADJ, ∀ a2 ∈ ADJ,
      transform_adj_to_adv ADV a1 = transform_adj_to_adv ADV a2 →
      transform_adj_to_adv ADV a1 ≠ none → a1 = a2)
    (l : List String) (hsub : ∀ x ∈ l, x ∈ ADJ)
    (maps : List (String × String) × List (String × String))
    (hinv : ∀ a adv, dget maps.1 a = some adv →
      a ∈ ADJ ∧ transform_adj_to_adv ADV a = some adv ∧
      dget maps.2 adv = some a) :
    ∀ a adv, dget (l.foldl (build_step ADV) maps).1 a = some adv →
      a ∈ ADJ ∧ transform_adj_to_adv ADV a = some adv ∧
      dget (l.foldl (build_step ADV) maps).2 adv = some a := by
  induction l generalizing maps with
  | nil => exact hinv
  | cons x rest ih =>
    rw [List.foldl_cons]
    apply ih (fun y hy => hsub y (List.mem_cons_of_mem x hy))
    cases hT : transform_adj_to_adv ADV x with
    | none =>
      rw [build_step_eq_none ADV maps x hT]
      exact hinv
    | some adv0 =>
      by_cases hg : adv0 ≠ "" ∧ adv0 ≠ x
      · rw [build_step_eq_pos ADV maps x adv0 hT hg.1 hg.2]
        intro a adv hget
        have hxA : x ∈ ADJ := hsub x (List.mem_cons_self x rest)
        by_cases hax : a = x
        · subst hax
          rw [dget_dinsert_self] at hget
          cases hget
          exact ⟨hxA, hT, dget_dinsert_self _ _ _⟩
        · rw [dget_dinsert_ne _ _ _ _ hax] at hget
          obtain ⟨h1, h2, h3⟩ := hinv a adv hget
          refine ⟨h1, h2, ?_⟩
          by_cases hadv : adv = adv0
          · subst hadv
            refine absurd (hinj a h1 x hxA ?_ ?_) hax
            · rw [h2, hT]
            · rw [h2]
              exact Option.noConfusion
          · rw [dget_dinsert_ne _ _ _ _ hadv]
            exact h3
      · rw [build_step_eq_skip ADV maps x adv0 hT hg]
        exact hinv

/-- An existing forward entry that agrees with the mapper survives the
rest of the building loop. -/
theorem foldl_m1_preserved (ADV : List String) (l : List String)
    (a adv : String) (hT : transform_adj_to_adv ADV a = some adv) :
    ∀ maps : List (String × String) × List (String × String),
      dget maps.1 a = some adv →
      dget (l.foldl (build_step ADV) maps).1 a = some adv := by
  induction l with
  | nil => exact fun _ h => h
  | cons x rest ih =>
    intro maps hget
    rw [List.foldl_cons]
    apply ih
    cases hTx : transform_adj_to_adv ADV x with
    | none =>
      rw [build_step_eq_none ADV maps x hTx]
      exact hget
    | some adv0 =>
      by_cases hg : adv0 ≠ "" ∧ adv0 ≠ x
      · rw [build_step_eq_pos ADV maps x adv0 hTx hg.1 hg.2]
        by_cases hax : a = x
        · subst hax
          rw [hT] at hTx
          cases hTx
          exact dget_dinsert_self _ _ _
        · rw [dget_dinsert_ne _ _ _ _ hax]
          exact hget
      · rw [build_step_eq_skip ADV maps x adv0 hTx hg]
        exact hget

/-- Every adjective of the processed list on which the mapper returns a
distinct adverb ends up in the forward map. -/
theorem foldl_m1_complete (ADV : List String) (l : List String)
    (a adv : String) (ha : a ∈ l)
    (hT : transform_adj_to_adv ADV a = some adv) (hne : adv ≠ a) :
    ∀ maps : List (String × String) × List (String × String),
      dget (l.foldl (build_step ADV) maps).1 a = some adv := by
  have hemp : adv ≠ "" := by
    intro h
    subst h
    exact hne (transform_some_empty ADV a hT).symm
  induction l with
  | nil => cases ha
  | cons x rest ih =>
    intro maps
    rw [List.foldl_cons]
    rcases List.mem_cons.mp ha with hax | har
    · subst hax
      apply foldl_m1_preserved ADV rest a adv hT
      rw [build_step_eq_pos ADV maps a adv hT hemp hne]
      exact dget_dinsert_self _ _ _
    · exact ih har _

/-- C1 (amended): assuming no two distinct adjectives of the adjective
lexicon are mapped to the same adverb, the built maps are mutually
consistent: every forward entry a ↦ adv records map(a) = adv ≠ a and has
the reverse entry adv ↦ a; every reverse entry adv ↦ a likewise points to
its forward entry; no entry of either map maps a word to itself; and every
adjective a of the lexicon with map(a) = adv ≠ a produces both entries. -/
theorem build_maps_reverse_consistency (ADJ ADV : List String)
    (hinj : ∀ a1 ∈ ADJ, ∀ a2 ∈ ADJ,
      transform_adj_to_adv ADV a1 = transform_adj_to_adv ADV a2 →
      transform_adj_to_adv ADV a1 ≠ none → a1 = a2) :
    (∀ a adv, dget (build_maps ADJ ADV).1 a = some adv →
      transform_adj_to_adv ADV a = some adv ∧ adv ≠ a ∧
      dget (build_maps ADJ ADV).2 adv = some a) ∧
    (∀ adv a, dget (build_maps ADJ ADV).2 adv = some a →
      transform_adj_to_adv ADV a = some adv ∧ adv ≠ a ∧
      dget (build_maps ADJ ADV).1 a = some adv) ∧
    (∀ a ∈ ADJ, ∀ adv, transform_adj_to_adv ADV a = some adv → adv ≠ a →
      dget (build_maps ADJ ADV).1 a = some adv ∧
      dget (build_maps ADJ ADV).2 adv = some a) := by
  have hs1 := foldl_m1_sound ADV ADJ ([], []) (by intro a adv h; cases h)
  have hs2 := foldl_m2_sound ADJ ADV ADJ (fun x hx => hx) ([], [])
    (by intro adv a h; cases h)
  have hc1 := foldl_m1_complete_rev ADJ ADV hinj ADJ (fun x hx => hx) ([], [])
    (by intro a adv h; cases h)
  refine ⟨?_, ?_, ?_⟩
  · intro a adv hget
    obtain ⟨-, h2, h3⟩ := hc1 a adv hget
    exact ⟨h2, (hs1 a adv hget).2.2, h3⟩
  · intro adv a hget
    obtain ⟨h1, h2, -, h4⟩ := hs2 adv a hget
    exact ⟨h1, h2, h4⟩
  · intro a ha adv hT hne
    have hm1 : dget (build_maps ADJ ADV).1 a = some adv :=
      foldl_m1_complete ADV ADJ a adv ha hT hne ([], [])
    exact ⟨hm1, (hc1 a adv hm1).2.2⟩

theorem build_maps_reverse_consistency_witness :
    (∀ a1 ∈ (["quick"] : List String), ∀ a2 ∈ (["quick"] : List String),
      transform_adj_to_adv ["quickly"] a1 = transform_adj_to_adv ["quickly"] a2 →
      transform_adj_to_adv ["quickly"] a1 ≠ none → a1 = a2) ∧
    dget (build_maps ["quick"] ["quickly"]).1 "quick" = some "quickly" ∧
    dget (build_maps ["quick"] ["quickly"]).2 "quickly" = some "quick" := by
  have h := (build_maps_reverse_consistency ["quick"] ["quickly"] (by decide)).2.2
    "quick" (by decide) "quickly" (by decide) (by decide)
  exact ⟨by decide, h.1, h.2⟩

/-- C1 as stated is false on the code: with adjective lexicon
["ab", "able"] and adverb lexicon ["ably"], both adjectives are mapped to
"ably"; the forward map holds both entries, but the reverse map resolves
"ably" to "able" (the later insertion overwrote the earlier one), so
reverse(map("ab")) ≠ "ab" and the forward entry "ab" ↦ "ably" has no
corresponding reverse entry. -/
theorem build_maps_reverse_cex :
    transform_adj_to_adv ["ably"] "ab" = some "ably" ∧
    ("ably" : String) ≠ "ab" ∧
    "ab" ∈ (["ab", "able"] : List String) ∧
    dget (build_maps ["ab", "able"] ["ably"]).1 "ab" = some "ably" ∧
    dget (build_maps ["ab", "able"] ["ably"]).2 "ably" = some "able" ∧
    dget (build_maps ["ab", "able"] ["ably"]).2 "ably" ≠ some "ab" := by decide

theorem collect_go_cons (m1 m2 : List (String × String)) (texts : List String)
    (j : Nat) (tok : Token) (rest : List Token) :
    collect_go m1 m2 texts j (tok :: rest) =
      if adj_cond m1 tok then
        (⟨texts, j, "ADJ"⟩ :: (collect_go m1 m2 texts (j + 1) rest).1,
          (collect_go m1 m2 texts (j + 1) rest).2)
      else if adv_cond m2 tok then
        ((collect_go m1 m2 texts (j + 1) rest).1,
          ⟨texts, j, "ADV"⟩ :: (collect_go m1 m2 texts (j + 1) rest).2)
      else collect_go m1 m2 texts (j + 1) rest := rfl

/-- Membership in the adjective-example list of the token loop: exactly the
positions whose token satisfies the adjective branch condition. -/
theorem collect_go_adj_mem (m1 m2 : List (String × String)) (texts : List String) :
    ∀ (toks : List Token) (j : Nat) (e : Example),
      e ∈ (collect_go m1 m2 texts j toks).1 ↔
      ∃ k tok, toks[k]? = some tok ∧ adj_cond m1 tok = true ∧
        e = ⟨texts, j + k, "ADJ"⟩ := by
  intro toks
  induction toks with
  | nil =>
    intro j e
    simp [collect_go]
  | cons tok rest ih =>
    intro j e
    rw [collect_go_cons]
    by_cases h1 : adj_cond m1 tok
    · rw [if_pos h1]
      simp only [List.mem_cons]
      constructor
      · rintro (rfl | hmem)
        · exact ⟨0, tok, List.getElem?_cons_zero, h1, by rw [Nat.add_zero]⟩
        · obtain ⟨k, tk, hk, hc, he⟩ := (ih (j + 1) e).mp hmem
          refine ⟨k + 1, tk, by simpa using hk, hc, ?_⟩
          rw [he]
          congr 1
          omega
      · rintro ⟨k, tk, hk, hc, rfl⟩
        cases k with
        | zero =>
          left
          rw [List.getElem?_cons_zero] at hk
          cases hk
          rw [Nat.add_zero]
        | succ k' =>
          right
          rw [List.getElem?_cons_succ] at hk
          refine (ih (j + 1) _).mpr ⟨k', tk, hk, hc, ?_⟩
          congr 1
          omega
    · rw [if_neg h1]
      have hbase : e ∈ (if adv_cond m2 tok then
            ((collect_go m1 m2 texts (j + 1) rest).1,
              (⟨texts, j, "ADV"⟩ : Example) :: (collect_go m1 m2 texts (j + 1) rest).2)
          else collect_go m1 m2 texts (j + 1) rest).1 ↔
          e ∈ (collect_go m1 m2 texts (j + 1) rest).1 := by
        by_cases h2 : adv_cond m2 tok
        · rw [if_pos h2]
        · rw [if_neg h2]
      rw [hbase, ih (j + 1) e]
      constructor
      · rintro ⟨k, tk, hk, hc, he⟩
        refine ⟨k + 1, tk, by simpa using hk, hc, ?_⟩
        rw [he]
        congr 1
        omega
      · rintro ⟨k, tk, hk, hc, rfl⟩
        cases k with
        | zero =>
          rw [List.getElem?_cons_zero] at hk
          cases hk
          exact absurd hc (by simpa using h1)
        | succ k' =>
          rw [List.getElem?_cons_succ] at hk
          refine ⟨k', tk, hk, hc, ?_⟩
          congr 1
          omega

/-- Membership in the adverb-example list of the token loop: exactly the
positions whose token fails the adjective branch and satisfies the adverb
branch condition. -/
theorem collect_go_adv_mem (m1 m2 : List (String × String)) (texts : List String) :
    ∀ (toks : List Token) (j : Nat) (e : Example),
      e ∈ (collect_go m1 m2 texts j toks).2 ↔
      ∃ k tok, toks[k]? = some tok ∧ adj_cond m1 tok = false ∧
        adv_cond m2 tok = true ∧ e = ⟨texts, j + k, "ADV"⟩ := by
  intro toks
  induction toks with
  | nil =>
    intro j e
    simp [collect_go]
  | cons tok rest ih =>
    intro j e
    rw [collect_go_cons]
    by_cases h1 : adj_cond m1 tok
    · rw [if_pos h1]
      rw [ih (j + 1) e]
      constructor
      · rintro ⟨k, tk, hk, hc1, hc2, he⟩
        refine ⟨k + 1, tk, by simpa using hk, hc1, hc2, ?_⟩
        rw [he]
        congr 1
        omega
      · rintro ⟨k, tk, hk, hc1, hc2, rfl⟩
        cases k with
        | zero =>
          rw [List.getElem?_cons_zero] at hk
          cases hk
          rw [h1] at hc1
          cases hc1
        | succ k' =>
          rw [List.getElem?_cons_succ] at hk
          refine ⟨k', tk, hk, hc1, hc2, ?_⟩
          congr 1
          omega
    · rw [if_neg h1]
      by_cases h2 : adv_cond m2 tok
      · rw [if_pos h2]
        simp only [List.mem_cons]
        constructor
        · rintro (rfl | hmem)
          · exact ⟨0, tok, List.getElem?_cons_zero, by simpa using h1, h2, by rw [Nat.add_zero]⟩
          · obtain ⟨k, tk, hk, hc1, hc2, he⟩ := (ih (j + 1) e).mp hmem
            refine ⟨k + 1, tk, by simpa using hk, hc1, hc2, ?_⟩
            rw [he]
            congr 1
            omega
        · rintro ⟨k, tk, hk, hc1, hc2, rfl⟩
          cases k with
          | zero =>
            left
            rw [List.getElem?_cons_zero] at hk
            cases hk
            rw [Nat.add_zero]
          | succ k' =>
            right
            rw [List.getElem?_cons_succ] at hk
            refine (ih (j + 1) _).mpr ⟨k', tk, hk, hc1, hc2, ?_⟩
            congr 1
            omega
      · rw [if_neg h2]
        rw [ih (j + 1) e]
        constructor
        · rintro ⟨k, tk, hk, hc1, hc2, he⟩
          refine ⟨k + 1, tk, by simpa using hk, hc1, hc2, ?_⟩
          rw [he]
          congr 1
          omega
        · rintro ⟨k, tk, hk, hc1, hc2, rfl⟩
          cases k with
          | zero =>
            rw [List.getElem?_cons_zero] at hk
            cases hk
            exact absurd hc2 h2
          | succ k' =>
            rw [List.getElem?_cons_succ] at hk
            refine ⟨k', tk, hk, hc1, hc2, ?_⟩
            congr 1
            omega

/-- The adjective example for position i of a sentence is collected exactly
when the token at i satisfies the adjective branch condition. -/
theorem collect_sent_adj_mem (m1 m2 : List (String × String))
    (sent : List Token) (i : Nat) (tok : Token) (hget : sent[i]? = some tok) :
    (⟨sent.map Token.text, i, "ADJ"⟩ : Example) ∈ (collect_sent m1 m2 sent).1 ↔
      adj_cond m1 tok = true := by
  rw [collect_sent, collect_go_adj_mem]
  constructor
  · rintro ⟨k, tk, hk, hc, he⟩
    have hik : i = k := by
      have := congrArg Example.ind he
      simpa using this
    subst hik
    rw [hget] at hk
    cases hk
    exact hc
  · intro hc
    exact ⟨i, tok, hget, hc, by rw [Nat.zero_add]⟩

/-- The adverb example for position i of a sentence is collected exactly
when the token at i fails the adjective branch and satisfies the adverb
branch condition. -/
theorem collect_sent_adv_mem (m1 m2 : List (String × String))
    (sent : List Token) (i : Nat) (tok : Token) (hget : sent[i]? = some tok) :
    (⟨sent.map Token.text, i, "ADV"⟩ : Example) ∈ (collect_sent m1 m2 sent).2 ↔
      (adj_cond m1 tok = false ∧ adv_cond m2 tok = true) := by
  rw [collect_sent, collect_go_adv_mem]
  constructor
  · rintro ⟨k, tk, hk, hc1, hc2, he⟩
    have hik : i = k := by
      have := congrArg Example.ind he
      simpa using this
    subst hik
    rw [hget] at hk
    cases hk
    exact ⟨hc1, hc2⟩
  · rintro ⟨hc1, hc2⟩
    exact ⟨i, tok, hget, hc1, hc2, by rw [Nat.zero_add]⟩

/-- A token satisfying the adverb branch condition cannot satisfy the
adjective branch condition: the tags "RB" and "JJ" are mutually
exclusive. -/
theorem adv_cond_not_adj (m1 m2 : List (String × String)) (tok : Token)
    (h : adv_cond m2 tok = true) : adj_cond m1 tok = false := by
  unfold adv_cond at h
  simp only [Bool.and_eq_true, beq_iff_eq] at h
  unfold adj_cond
  rw [h.1.1]
  rfl

/-- When every value of a dict is a non-empty string, Python truthiness of
a lookup coincides with the lookup succeeding. -/
theorem py_truthy_isSome (m : List (String × String))
    (hm : ∀ k v, dget m k = some v → v ≠ "") (k : String) :
    py_truthy (dget m k) = (dget m k).isSome := by
  cases h : dget m k with
  | none => rfl
  | some v =>
    have hv := hm k v h
    simp [py_truthy, hv]

/-- Every value of the built forward map is non-empty (guaranteed by the
truthiness gate of the building loop). -/
theorem build_m1_values_ne_empty (ADJ ADV : List String) :
    ∀ k v, dget (build_maps ADJ ADV).1 k = some v → v ≠ "" :=
  fun k v h =>
    ((foldl_m1_sound ADV ADJ ([], []) (by intro a adv hh; cases hh)) k v h).2.1

/-- Every value of the built reverse map is an adjective of the lexicon;
if the empty string is not a lexicon word, the values are non-empty. -/
theorem build_m2_values_ne_empty (ADJ ADV : List String) (h0 : "" ∉ ADJ) :
    ∀ k v, dget (build_maps ADJ ADV).2 k = some v → v ≠ "" := by
  intro k v h he
  have hs := foldl_m2_sound ADJ ADV ADJ (fun x hx => hx) ([], [])
    (by intro adv a hh; cases hh) k v h
  subst he
  exact h0 hs.2.2.1

/-- The adjective branch condition, spelled out, for a dict with non-empty
values. -/
theorem adj_cond_iff (m1 : List (String × String)) (tok : Token)
    (hm : ∀ k v, dget m1 k = some v → v ≠ "") :
    adj_cond m1 tok = true ↔
      (tok.tag = "JJ" ∧ pyStartsWith tok.head_tag "VB" = true ∧
        (dget m1 tok.text).isSome = true) := by
  unfold adj_cond
  rw [py_truthy_isSome m1 hm]
  simp [Bool.and_eq_true, and_assoc]

/-- The adverb branch condition, spelled out, for a dict with non-empty
values. -/
theorem adv_cond_iff (m2 : List (String × String)) (tok : Token)
    (hm : ∀ k v, dget m2 k = some v → v ≠ "") :
    adv_cond m2 tok = true ↔
      (tok.tag = "RB" ∧ pyStartsWith tok.head_tag "VB" = true ∧
        (dget m2 tok.text).isSome = true) := by
  unfold adv_cond
  rw [py_truthy_isSome m2 hm]
  simp [Bool.and_eq_true, and_assoc]

/-- C2: with the maps built from lexicons whose adjective list does not
contain the empty string, a token of an annotated sentence emits an
Example labeled ADJ (with the full sentence's token texts and the token's
position) exactly when its tag is "JJ", its dependency head's tag starts
with "VB", and the adjective→adverb map has an entry for its exact text;
the analogous condition with tag "RB" and the adverb→adjective map emits
an Example labeled ADV; and no single token emits both. -/
theorem collector_predicate (ADJ ADV : List String) (h0 : "" ∉ ADJ)
    (sent : List Token) (i : Nat) (tok : Token) (hget : sent[i]? = some tok) :
    ((⟨sent.map Token.text, i, "ADJ"⟩ : Example) ∈
        (collect_sent (build_maps ADJ ADV).1 (build_maps ADJ ADV).2 sent).1 ↔
      tok.tag = "JJ" ∧ pyStartsWith tok.head_tag "VB" = true ∧
        (dget (build_maps ADJ ADV).1 tok.text).isSome = true) ∧
    ((⟨sent.map Token.text, i, "ADV"⟩ : Example) ∈
        (collect_sent (build_maps ADJ ADV).1 (build_maps ADJ ADV).2 sent).2 ↔
      tok.tag = "RB" ∧ pyStartsWith tok.head_tag "VB" = true ∧
        (dget (build_maps ADJ ADV).2 tok.text).isSome = true) ∧
    ¬((⟨sent.map Token.text, i, "ADJ"⟩ : Example) ∈
        (collect_sent (build_maps ADJ ADV).1 (build_maps ADJ ADV).2 sent).1 ∧
      (⟨sent.map Token.text, i, "ADV"⟩ : Example) ∈
        (collect_sent (build_maps ADJ ADV).1 (build_maps ADJ ADV).2 sent).2) := by
  have hm1 := build_m1_values_ne_empty ADJ ADV
  have hm2 := build_m2_values_ne_empty ADJ ADV h0
  have hA := collect_sent_adj_mem (build_maps ADJ ADV).1 (build_maps ADJ ADV).2
    sent i tok hget
  have hV := collect_sent_adv_mem (build_maps ADJ ADV).1 (build_maps ADJ ADV).2
    sent i tok hget
  have hAiff := hA.trans (adj_cond_iff (build_maps ADJ ADV).1 tok hm1)
  have hViff : (⟨sent.map Token.text, i, "ADV"⟩ : Example) ∈
      (collect_sent (build_maps ADJ ADV).1 (build_maps ADJ ADV).2 sent).2 ↔
      adv_cond (build_maps ADJ ADV).2 tok = true := by
    rw [hV]
    constructor
    · exact fun h => h.2
    · exact fun h => ⟨adv_cond_not_adj _ _ tok h, h⟩
  refine ⟨hAiff, hViff.trans (adv_cond_iff (build_maps ADJ ADV).2 tok hm2), ?_⟩
  rintro ⟨hmemA, hmemV⟩
  have h1 : tok.tag = "JJ" := (hAiff.mp hmemA).1
  have h2 : adv_cond (build_maps ADJ ADV).2 tok = true := hViff.mp hmemV
  have h3 : adj_cond (build_maps ADJ ADV).1 tok = false := adv_cond_not_adj _ _ tok h2
  rw [hA] at hmemA
  rw [hmemA] at h3
  cases h3

theorem collector_predicate_witness :
    ("" : String) ∉ (["quick"] : List String) ∧
    ([Token.mk "runs" "VBZ" "VBZ", Token.mk "quick" "JJ" "VBZ"])[1]? =
      some (Token.mk "quick" "JJ" "VBZ") ∧
    ((⟨["runs", "quick"], 1, "ADJ"⟩ : Example) ∈
        (collect_sent (build_maps ["quick"] ["quickly"]).1
          (build_maps ["quick"] ["quickly"]).2
          [Token.mk "runs" "VBZ" "VBZ", Token.mk "quick" "JJ" "VBZ"]).1 ↔
      (Token.mk "quick" "JJ" "VBZ").tag = "JJ" ∧
        pyStartsWith (Token.mk "quick" "JJ" "VBZ").head_tag "VB" = true ∧
        (dget (build_maps ["quick"] ["quickly"]).1
          (Token.mk "quick" "JJ" "VBZ").text).isSome = true) := by
  have h := collector_predicate ["quick"] ["quickly"] (by decide)
    [Token.mk "runs" "VBZ" "VBZ", Token.mk "quick" "JJ" "VBZ"] 1
    (Token.mk "quick" "JJ" "VBZ") (by decide)
  exact ⟨by decide, by decide, h.1⟩

theorem mem_catMap {α β : Type} (g : α → List β) (b : β) :
    ∀ l : List α, b ∈ catMap g l ↔ ∃ a ∈ l, b ∈ g a := by
  intro l
  induction l with
  | nil => simp [catMap]
  | cons x xs ih => simp [catMap, List.mem_append, ih]

/-- Folding sentence processing over a list of sentences appends, to each
accumulated list, the concatenation of the per-sentence results. -/
theorem sent_foldl_norm (m1 m2 : List (String × String)) :
    ∀ (sents : List (List Token)) (acc : List Example × List Example),
      sents.foldl (sent_step m1 m2) acc =
        (acc.1 ++ catMap (fun s => (collect_sent m1 m2 s).1) sents,
          acc.2 ++ catMap (fun s => (collect_sent m1 m2 s).2) sents) := by
  intro sents
  induction sents with
  | nil =>
    intro acc
    cases acc
    simp [catMap]
  | cons s rest ih =>
    intro acc
    rw [List.foldl_cons, ih]
    simp [sent_step, catMap, List.append_assoc]

/-- Folding line processing over already-filtered lines appends the
per-line concatenations of per-sentence results. -/
theorem line_foldl_norm (annotate : String → List (List Token))
    (m1 m2 : List (String × String)) :
    ∀ (lines : List String) (acc : List Example × List Example),
      lines.foldl (fun a line => (annotate line).foldl (sent_step m1 m2) a) acc =
        (acc.1 ++ catMap (fun line =>
            catMap (fun s => (collect_sent m1 m2 s).1) (annotate line)) lines,
          acc.2 ++ catMap (fun line =>
            catMap (fun s => (collect_sent m1 m2 s).2) (annotate line)) lines) := by
  intro lines
  induction lines with
  | nil =>
    intro acc
    cases acc
    simp [catMap]
  | cons l rest ih =>
    intro acc
    rw [List.foldl_cons, ih, sent_foldl_norm]
    simp [catMap, List.append_assoc]

theorem collect_lines_norm (annotate : String → List (List Token))
    (m1 m2 : List (String × String)) (lines : List String) :
    collect_lines annotate m1 m2 lines =
      (catMap (fun line =>
          catMap (fun s => (collect_sent m1 m2 s).1) (annotate line)) lines,
        catMap (fun line =>
          catMap (fun s => (collect_sent m1 m2 s).2) (annotate line)) lines) := by
  rw [collect_lines, line_foldl_norm]
  simp

theorem line_step_pos (annotate : String → List (List Token))
    (m1 m2 : List (String × String)) (acc : List Example × List Example)
    (raw : String)
    (h : (pyStrip raw).length > 0 ∧ ¬pyStartsWith (pyStrip raw) "<") :
    line_step annotate m1 m2 acc raw =
      (annotate (pyStrip raw)).foldl (sent_step m1 m2) acc := by
  unfold line_step
  exact if_pos h

theorem line_step_neg (annotate : String → List (List Token))
    (m1 m2 : List (String × String)) (acc : List Example × List Example)
    (raw : String)
    (h : ¬((pyStrip raw).length > 0 ∧ ¬pyStartsWith (pyStrip raw) "<")) :
    line_step annotate m1 m2 acc raw = acc := by
  unfold line_step
  exact if_neg h

/-- One file's raw-line loop equals line processing over the stripped,
filtered lines of that file. -/
theorem raw_lines_fold (annotate : String → List (List Token))
    (m1 m2 : List (String × String)) :
    ∀ (rawLines : List String) (acc : List Example × List Example),
      rawLines.foldl (line_step annotate m1 m2) acc =
        ((rawLines.map pyStrip).filter
            (fun l => l.length > 0 ∧ ¬pyStartsWith l "<")).foldl
          (fun a line => (annotate line).foldl (sent_step m1 m2) a) acc := by
  intro rawLines
  induction rawLines with
  | nil => intro acc; rfl
  | cons raw rest ih =>
    intro acc
    rw [List.foldl_cons, List.map_cons]
    by_cases hc : (pyStrip raw).length > 0 ∧ ¬pyStartsWith (pyStrip raw) "<"
    · rw [line_step_pos annotate m1 m2 acc raw hc]
      rw [List.filter_cons_of_pos (by exact decide_eq_true hc), List.foldl_cons]
      exact ih _
    · rw [line_step_neg annotate m1 m2 acc raw hc]
      rw [List.filter_cons_of_neg (by simpa using hc)]
      exact ih acc

/-- The whole scanning loop equals line processing over the submitted
lines of the first 55 files. -/
theorem scan_fold_eq (annotate : String → List (List Token))
    (m1 m2 : List (String × String)) :
    ∀ (fs : List (List String)) (acc : List Example × List Example),
      fs.foldl (fun a lines => lines.foldl (line_step annotate m1 m2) a) acc =
        (catMap (fun lines => (lines.map pyStrip).filter
            (fun l => l.length > 0 ∧ ¬pyStartsWith l "<")) fs).foldl
          (fun a line => (annotate line).foldl (sent_step m1 m2) a) acc := by
  intro fs
  induction fs with
  | nil => intro acc; rfl
  | cons lines rest ih =>
    intro acc
    rw [List.foldl_cons, ih, catMap, List.foldl_append, raw_lines_fold]

theorem run_collect_eq (annotate : String → List (List Token))
    (m1 m2 : List (String × String)) (files : List (List String)) :
    run_collect annotate m1 m2 files =
      collect_lines annotate m1 m2 (submitted_lines files) := by
  rw [run_collect, collect_lines, submitted_lines, scan_fold_eq]

/-- C8: only the first 55 files, in listing order, are processed; a line
that is empty after stripping or that begins with "<" is never submitted
to the annotator and contributes no example (the collected output equals
line processing over exactly the submitted lines), while every other line
of the first 55 files is submitted. -/
theorem scanner_filtering_cap (annotate : String → List (List Token))
    (m1 m2 : List (String × String)) (files : List (List String)) :
    run_collect annotate m1 m2 files =
      collect_lines annotate m1 m2 (submitted_lines files) ∧
    submitted_lines files = submitted_lines (files.take 55) ∧
    (∀ l ∈ submitted_lines files, l.length > 0 ∧ ¬pyStartsWith l "<") ∧
    (∀ lines ∈ files.take 55, ∀ raw ∈ lines,
      (pyStrip raw).length > 0 → ¬pyStartsWith (pyStrip raw) "<" →
      pyStrip raw ∈ submitted_lines files) := by
  refine ⟨run_collect_eq annotate m1 m2 files, ?_, ?_, ?_⟩
  · rw [submitted_lines, submitted_lines, List.take_take]
    norm_num
  · intro l hl
    rw [submitted_lines] at hl
    obtain ⟨lines, -, hmem⟩ := (mem_catMap _ l _).mp hl
    exact of_decide_eq_true ((List.mem_filter.mp hmem).2)
  · intro lines hlines raw hraw h1 h2
    rw [submitted_lines]
    refine (mem_catMap _ _ _).mpr ⟨lines, hlines, ?_⟩
    exact List.mem_filter.mpr ⟨List.mem_map_of_mem pyStrip hraw, decide_eq_true ⟨h1, h2⟩⟩

theorem scanner_filtering_cap_witness :
    pyStrip " hello " ∈ submitted_lines [["<tag>", " hello "]] := by
  have h := (scanner_filtering_cap (fun _ => []) [] [] [["<tag>", " hello "]]).2.2.2
  exact h ["<tag>", " hello "] (by decide) " hello " (by decide) (by decide) (by decide)

theorem py_truthy_imp_isSome (o : Option String) (h : py_truthy o = true) :
    o.isSome = true := by
  cases o with
  | none => cases h
  | some v => rfl

/-- Every example in the adjective list of a sentence is well formed: label
"ADJ", index within the sentence, and the sentence entry at the index is a
token text with a truthy forward-map entry. -/
theorem collect_sent_wf_adj (m1 m2 : List (String × String))
    (sent : List Token) (e : Example) (h : e ∈ (collect_sent m1 m2 sent).1) :
    e.label = "ADJ" ∧ e.ind < e.sentence.length ∧
    ∃ t, e.sentence[e.ind]? = some t ∧ (dget m1 t).isSome = true := by
  rw [collect_sent, collect_go_adj_mem] at h
  obtain ⟨k, tok, hk, hc, rfl⟩ := h
  obtain ⟨hlt, hget⟩ := List.getElem?_eq_some.mp hk
  simp only [Nat.zero_add]
  refine ⟨by trivial, by simpa using hlt, tok.text, ?_, ?_⟩
  · rw [List.getElem?_map, hk]
    rfl
  · apply py_truthy_imp_isSome
    unfold adj_cond at hc
    simp only [Bool.and_eq_true] at hc
    exact hc.2

/-- Every example in the adverb list of a sentence is well formed: label
"ADV", index within the sentence, and the sentence entry at the index is a
token text with a truthy reverse-map entry. -/
theorem collect_sent_wf_adv (m1 m2 : List (String × String))
    (sent : List Token) (e : Example) (h : e ∈ (collect_sent m1 m2 sent).2) :
    e.label = "ADV" ∧ e.ind < e.sentence.length ∧
    ∃ t, e.sentence[e.ind]? = some t ∧ (dget m2 t).isSome = true := by
  rw [collect_sent, collect_go_adv_mem] at h
  obtain ⟨k, tok, hk, hc1, hc2, rfl⟩ := h
  obtain ⟨hlt, hget⟩ := List.getElem?_eq_some.mp hk
  simp only [Nat.zero_add]
  refine ⟨by trivial, by simpa using hlt, tok.text, ?_, ?_⟩
  · rw [List.getElem?_map, hk]
    rfl
  · apply py_truthy_imp_isSome
    unfold adv_cond at hc2
    simp only [Bool.and_eq_true] at hc2
    exact hc2.2

/-- Every example of the scanner's adjective list comes from some sentence's
adjective list. -/
theorem run_collect_mem_adj (annotate : String → List (List Token))
    (m1 m2 : List (String × String)) (files : List (List String)) (e : Example)
    (h : e ∈ (run_collect annotate m1 m2 files).1) :
    ∃ sent, e ∈ (collect_sent m1 m2 sent).1 := by
  rw [run_collect_eq, collect_lines_norm] at h
  obtain ⟨line, -, hline⟩ := (mem_catMap _ e _).mp h
  obtain ⟨sent, -, hsent⟩ := (mem_catMap _ e _).mp hline
  exact ⟨sent, hsent⟩

/-- Every example of the scanner's adverb list comes from some sentence's
adverb list. -/
theorem run_collect_mem_adv (annotate : String → List (List Token))
    (m1 m2 : List (String × String)) (files : List (List String)) (e : Example)
    (h : e ∈ (run_collect annotate m1 m2 files).2) :
    ∃ sent, e ∈ (collect_sent m1 m2 sent).2 := by
  rw [run_collect_eq, collect_lines_norm] at h
  obtain ⟨line, -, hline⟩ := (mem_catMap _ e _).mp h
  obtain ⟨sent, -, hsent⟩ := (mem_catMap _ e _).mp hline
  exact ⟨sent, hsent⟩

/-- C10: every Example emitted by the scanning loop is well formed: its
label is exactly "ADJ" or "ADV"; its index lies within its sentence; the
sentence entry at the index is the matched token's exact text; and that
text is a key of the adjective→adverb map for label "ADJ" and of the
adverb→adjective map for label "ADV". -/
theorem example_wellformedness (annotate : String → List (List Token))
    (m1 m2 : List (String × String)) (files : List (List String)) (e : Example)
    (hmem : e ∈ (run_collect annotate m1 m2 files).1 ∨
            e ∈ (run_collect annotate m1 m2 files).2) :
    (e.label = "ADJ" ∨ e.label = "ADV") ∧ e.ind < e.sentence.length ∧
    (e ∈ (run_collect annotate m1 m2 files).1 →
      e.label = "ADJ" ∧
      ∃ t, e.sentence[e.ind]? = some t ∧ (dget m1 t).isSome = true) ∧
    (e ∈ (run_collect annotate m1 m2 files).2 →
      e.label = "ADV" ∧
      ∃ t, e.sentence[e.ind]? = some t ∧ (dget m2 t).isSome = true) := by
  have hadj : e ∈ (run_collect annotate m1 m2 files).1 →
      e.label = "ADJ" ∧ e.ind < e.sentence.length ∧
      ∃ t, e.sentence[e.ind]? = some t ∧ (dget m1 t).isSome = true := by
    intro h
    obtain ⟨sent, hsent⟩ := run_collect_mem_adj annotate m1 m2 files e h
    exact collect_sent_wf_adj m1 m2 sent e hsent
  have hadv : e ∈ (run_collect annotate m1 m2 files).2 →
      e.label = "ADV" ∧ e.ind < e.sentence.length ∧
      ∃ t, e.sentence[e.ind]? = some t ∧ (dget m2 t).isSome = true := by
    intro h
    obtain ⟨sent, hsent⟩ := run_collect_mem_adv annotate m1 m2 files e h
    exact collect_sent_wf_adv m1 m2 sent e hsent
  rcases hmem with h | h
  · obtain ⟨h1, h2, h3⟩ := hadj h
    exact ⟨Or.inl h1, h2, fun hh => ⟨h1, h3⟩, fun hh => ⟨(hadv hh).1, (hadv hh).2.2⟩⟩
  · obtain ⟨h1, h2, h3⟩ := hadv h
    exact ⟨Or.inr h1, h2, fun hh => ⟨(hadj hh).1, (hadj hh).2.2⟩, fun hh => ⟨h1, h3⟩⟩

theorem example_wellformedness_witness :
    ((⟨["quick"], 0, "ADJ"⟩ : Example) ∈
      (run_collect (fun _ => [[Token.mk "quick" "JJ" "VBD"]])
        (build_maps ["quick"] ["quickly"]).1 (build_maps ["quick"] ["quickly"]).2
        [["hi"]]).1) ∧
    (((⟨["quick"], 0, "ADJ"⟩ : Example).label = "ADJ" ∨
      (⟨["quick"], 0, "ADJ"⟩ : Example).label = "ADV") ∧
      (⟨["quick"], 0, "ADJ"⟩ : Example).ind <
        (⟨["quick"], 0, "ADJ"⟩ : Example).sentence.length) := by
  have hm : (⟨["quick"], 0, "ADJ"⟩ : Example) ∈
      (run_collect (fun _ => [[Token.mk "quick" "JJ" "VBD"]])
        (build_maps ["quick"] ["quickly"]).1 (build_maps ["quick"] ["quickly"]).2
        [["hi"]]).1 := by decide
  have h := example_wellformedness (fun _ => [[Token.mk "quick" "JJ" "VBD"]])
    (build_maps ["quick"] ["quickly"]).1 (build_maps ["quick"] ["quickly"]).2
    [["hi"]] ⟨["quick"], 0, "ADJ"⟩ (Or.inl hm)
  exact ⟨hm, h.1, h.2.1⟩

/-- C9: the path the scanner opens is the plain string concatenation of the
input-directory argument and the file name, with no separator inserted;
for a non-empty file name containing no separator, the opened path refers
to a file inside the directory exactly when the directory argument ends in
a path separator. -/
theorem path_concatenation (d f : String) (hf : f ≠ "") (hsep : '/' ∉ f.data) :
    opened_path d f = d ++ f ∧
    (d.data.getLast? = some '/' → refers_inside d (opened_path d f)) ∧
    (d.data.getLast? ≠ some '/' → ¬refers_inside d (opened_path d f)) := by
  refine ⟨rfl, ?_, ?_⟩
  · intro hd
    refine ⟨f.data, ?_, hsep, ?_⟩
    · intro h
      apply hf
      cases f with
      | mk fdata => cases h; rfl
    · rw [if_pos hd]
      exact String.data_append d f
  · rintro hd ⟨name, hne, hnotin, heq⟩
    rw [if_neg hd, List.append_assoc] at heq
    have hdf : (opened_path d f).data = d.data ++ f.data := String.data_append d f
    rw [hdf] at heq
    have : f.data = ['/'] ++ name := List.append_cancel_left heq
    apply hsep
    rw [this]
    exact List.mem_append_left _ (List.mem_singleton_self _)

theorem path_concatenation_witness :
    ("a.txt" : String) ≠ "" ∧ '/' ∉ ("a.txt" : String).data ∧
    (opened_path "blogs" "a.txt" = "blogs" ++ "a.txt" ∧
      (("blogs" : String).data.getLast? = some '/' →
        refers_inside "blogs" (opened_path "blogs" "a.txt")) ∧
      (("blogs" : String).data.getLast? ≠ some '/' →
        ¬refers_inside "blogs" (opened_path "blogs" "a.txt"))) :=
  ⟨by decide, by decide, path_concatenation "blogs" "a.txt" (by decide) (by decide)⟩
